import Mathlib

/-!
Verification of the multi-player Elo rating engine
(`elo-calculator/elo_calculator.py`) against its specification.

Numeric conventions: Python float arithmetic is idealised as exact real
arithmetic (`ℝ`), matching the spec's exact statements.  A Python
`ZeroDivisionError` / `KeyError` is modelled by an explicit definedness
predicate or an error value, as noted on each definition.
-/

namespace Elo

/-- Player identifiers are opaque strings (the dict keys of the source). -/
abbrev Player := String

/-- A match is an ordered list of position groups, each a list of player
identifiers tied at that rank (source: `[[A], [B, C], [D]]`). -/
abbrev Match := List (List Player)

noncomputable section

/-- Denominator of `final_scores`:
`sum(alpha ** (no_pos - i) - 1 for i in range(1, no_pos + 1))`.
`range(1, no_pos + 1)` is the integers `1 .. no_pos` (empty when
`no_pos < 1`), and `alpha ** k` with an integer exponent is `zpow`. -/
def fsDen (no_pos : ℤ) (alpha : ℝ) : ℝ :=
  ∑ i in Finset.Icc (1 : ℤ) no_pos, (alpha ^ (no_pos - i) - 1)

/-- `final_scores(pos, no_pos=2, alpha=ALPHA)` from the source:
`if no_pos == 1: return 0.5`, otherwise
`(alpha ** (no_pos - pos) - 1) / den`.  Division is total here (Lean's
`x / 0 = 0` junk value); the case in which Python instead raises a
`ZeroDivisionError` is captured by `final_scores_ok`. -/
def final_scores (pos : ℤ) (no_pos : ℤ) (alpha : ℝ) : ℝ :=
  if no_pos = 1 then 0.5
  else (alpha ^ (no_pos - pos) - 1) / fsDen no_pos alpha

/-- The call `final_scores(pos, no_pos, alpha)` returns without raising:
either the `no_pos == 1` early return fires, or the denominator of the
final division is nonzero.  (The position argument plays no role: the
source never validates it.) -/
def final_scores_ok (no_pos : ℤ) (alpha : ℝ) : Prop :=
  no_pos = 1 ∨ fsDen no_pos alpha ≠ 0

/-- `winning_probability(ratings, diff=DIFF)` from the source, with the
dict modelled as its key set `s` plus value function `R`.  For each
player `p` the value is
`(Σ_{q ∈ s, q ≠ p} 1 / (1 + 10 ** ((R q - R p) / diff))) / (N (N-1) / 2)`
with `N = len(ratings)`; `10 ** x` with a real exponent is `rpow`.
Division is total here; the `ZeroDivisionError` Python raises when the
pair count is zero and the loop body runs is captured by
`winning_probability_fails`. -/
def winning_probability (s : Finset Player) (R : Player → ℝ) (diff : ℝ) :
    Player → ℝ :=
  fun p =>
    (∑ q in s.erase p, 1 / (1 + (10 : ℝ) ^ ((R q - R p) / diff))) /
      ((s.card : ℝ) * ((s.card : ℝ) - 1) / 2)

/-- `winning_probability` raises `ZeroDivisionError` iff the division
`num / den` is actually executed (the outer loop has at least one
iteration, i.e. the dict is nonempty) and `den = N (N-1) / 2` is zero. -/
def winning_probability_fails (s : Finset Player) : Prop :=
  0 < s.card ∧ ((s.card : ℝ) * ((s.card : ℝ) - 1) / 2) = 0

/-- `History.reset_ratings`: `{k: max(1400, v) for k, v in ratings.items()}`,
as a value transformation on the rating function. -/
def reset_ratings (r : Player → ℝ) : Player → ℝ :=
  fun k => max 1400 (r k)

/-- The `History` object: current ratings dict (key set `keys`, values
`ratings`) plus the `defaultdict(list)` of per-player snapshot lists. -/
structure History where
  keys : Finset Player
  ratings : Player → ℝ
  history : Player → List ℝ

/-- `History.update_history`: `for k, v in self._ratings.items():
self.history[k].append(v)` — appends the current rating of every key of
the ratings dict to that player's history list. -/
def History.update_history (h : History) : History :=
  { h with
    history := fun k => if k ∈ h.keys then h.history k ++ [h.ratings k]
                        else h.history k }

/-- `History.__init__(init_ratings)`: stores `init_ratings` directly in
`self._ratings` (NOT through the property setter, so no clamping), sets
`self.history = defaultdict(list)`, then calls `update_history`. -/
def History.init (ks : Finset Player) (r : Player → ℝ) : History :=
  History.update_history { keys := ks, ratings := r, history := fun _ => [] }

/-- The `History.ratings` property setter:
`self._ratings = self.reset_ratings(ratings); self.update_history()`.
The assigned dict has key set `ks` and values `r`. -/
def History.set_ratings (h : History) (ks : Finset Player) (r : Player → ℝ) :
    History :=
  History.update_history { h with keys := ks, ratings := reset_ratings r }

/-- Errors `calculate_new_ratings` can raise: `KeyError` on
`ratings[name]` for a name absent from the ratings dict (modelled as
`unknownPlayer name`), and the `ZeroDivisionError` from calling
`winning_probability` on a single-player sub-dict (`degenerateField`). -/
inductive CalcErr where
  | unknownPlayer (name : Player) : CalcErr
  | degenerateField : CalcErr
deriving DecidableEq

/-- The first name of the flattened match absent from the ratings dict:
the `KeyError` in `player_ratings[name] = ratings[name]` is raised at the
first such name in iteration order. -/
def firstUnknown (keys : Finset Player) (m : Match) : Option Player :=
  m.flatten.find? (fun n => decide (n ∉ keys))

/-- The `player_scores` dict:
`for pos, names in enumerate(match, 1): for name in names:
player_scores[name] = final_scores(pos, len(match))` — a left fold of
dict writes (later groups overwrite earlier ones on a repeated name).
`no_pos` is `len(match)` and the position counter starts at 1. -/
def buildScoresAux (no_pos : ℤ) (alpha : ℝ) :
    ℤ → List (List Player) → (Player → ℝ) → (Player → ℝ)
  | _, [], f => f
  | pos, g :: rest, f =>
      buildScoresAux no_pos alpha (pos + 1) rest
        (g.foldl (fun f n => Function.update f n (final_scores pos no_pos alpha)) f)

/-- `player_scores` for a match, seeded with a junk value of 0 for
players never written (Python would raise on such a read, but the source
only ever reads names it has written). -/
def buildScores (m : Match) : Player → ℝ :=
  buildScoresAux m.length 4 1 m (fun _ => 0)

/-- The final update loop:
`for name in players: ratings[name] += award * (len(players) - 1) *
(player_scores[name] - win_chance[name])`, as a left fold of in-place
dict writes reading the current value at each step. -/
def applyUpdates (award M : ℝ) (scores wc : Player → ℝ) :
    (Player → ℝ) → List Player → (Player → ℝ)
  | R, [] => R
  | R, n :: rest =>
      applyUpdates award M scores wc
        (Function.update R n (R n + award * (M - 1) * (scores n - wc n))) rest

/-- `calculate_new_ratings(ratings, match, award=K)` from the source.
The ratings dict (key set `keys`, values `R`) is mutated in place and
also returned, so the result's first component is the dict's state when
the call ends — which, because both possible exceptions (`KeyError`
while building `player_ratings`, `ZeroDivisionError` inside
`winning_probability`) are raised before the update loop writes
anything, is the unchanged input dict whenever the second component
reports an error.  `win_chance` is `winning_probability` on the
sub-dict of match participants only (default `diff = 700`), and
`M = len(players)` counts every member of every group. -/
def calculate_new_ratings (keys : Finset Player) (R : Player → ℝ)
    (m : Match) (award : ℝ) : (Player → ℝ) × Option CalcErr :=
  match firstUnknown keys m with
  | some n => (R, some (CalcErr.unknownPlayer n))
  | none =>
      let participants := m.flatten.toFinset
      if participants.card = 1 then (R, some CalcErr.degenerateField)
      else
        let scores := buildScores m
        let wc := winning_probability participants R 700
        (applyUpdates award (m.flatten.length : ℝ) scores wc R m.flatten, none)

/-- One iteration of the loop in `main()`:
`history.ratings = calculate_new_ratings(ratings, match)`.
`calculate_new_ratings` mutates and returns the module-level `ratings`
dict, so the global dict becomes the raw (unclamped) result, while the
property setter stores its clamped copy in the tracker.  (The matches
fed to `main` are assumed valid, as the source assumes.) -/
def main_step (keys : Finset Player) (g : Player → ℝ) (h : History)
    (m : Match) : (Player → ℝ) × History :=
  let g2 := (calculate_new_ratings keys g m 50).1
  (g2, h.set_ratings keys g2)

/-- The loop of `main()`: `for match in matches: history.ratings =
calculate_new_ratings(ratings, match)`, threading the global dict and
the tracker through the match list in order. -/
def main_loop (keys : Finset Player) :
    (Player → ℝ) → History → List Match → (Player → ℝ) × History
  | g, h, [] => (g, h)
  | g, h, m :: ms =>
      main_loop keys (main_step keys g h m).1 (main_step keys g h m).2 ms

end

/-! ### Basic evaluations of the score model -/

lemma fsDen_two (α : ℝ) : fsDen 2 α = α - 1 := by
  have h : Finset.Icc (1 : ℤ) 2 = {1, 2} := by decide
  rw [fsDen, h, Finset.sum_insert (by decide), Finset.sum_singleton]
  norm_num

lemma fsDen_three_four : fsDen 3 4 = 18 := by
  have h : Finset.Icc (1 : ℤ) 3 = {1, 2, 3} := by decide
  rw [fsDen, h, Finset.sum_insert (by decide), Finset.sum_insert (by decide),
    Finset.sum_singleton]
  norm_num

lemma fsDen_alpha_one (T : ℤ) : fsDen T 1 = 0 := by
  simp [fsDen]

lemma fsDen_of_lt_one (T : ℤ) (α : ℝ) (hT : T < 1) : fsDen T α = 0 := by
  rw [fsDen, Finset.Icc_eq_empty (by omega), Finset.sum_empty]

lemma fsDen_pos (T : ℤ) (α : ℝ) (hT : 2 ≤ T) (hα : 1 < α) : 0 < fsDen T α := by
  apply Finset.sum_pos'
  · intro i hi
    rw [Finset.mem_Icc] at hi
    have : (1 : ℝ) ≤ α ^ (T - i) := one_le_zpow₀ hα.le (by omega)
    linarith
  · refine ⟨1, Finset.mem_Icc.mpr ⟨le_refl 1, by omega⟩, ?_⟩
    have : (1 : ℝ) < α ^ (T - 1) := one_lt_zpow₀ hα (by omega)
    linarith

lemma final_scores_one_two (α : ℝ) (hα : 1 < α) : final_scores 1 2 α = 1 := by
  rw [final_scores, if_neg (by norm_num), fsDen_two]
  rw [show (2 : ℤ) - 1 = 1 by norm_num, zpow_one]
  exact div_self (by linarith [sub_ne_zero_of_ne (ne_of_gt hα)])

lemma final_scores_two_two (α : ℝ) : final_scores 2 2 α = 0 := by
  rw [final_scores, if_neg (by norm_num)]
  norm_num

lemma final_scores_one_three_four : final_scores 1 3 4 = 5 / 6 := by
  rw [final_scores, if_neg (by norm_num), fsDen_three_four]
  norm_num

/-! ### C1: value of the top position -/

/-- C1 (counterexample): the claim says `finalScore(1, T, alpha) = 1` for
every `T ≥ 2` and `alpha > 1`; at `T = 3`, `alpha = 4` (the default) the
code returns `(4^2 - 1) / ((4^2 - 1) + (4 - 1) + (1 - 1)) = 15/18 = 5/6`,
which is not 1. -/
theorem c1_counterexample :
    final_scores 1 3 4 = 5 / 6 ∧ (5 / 6 : ℝ) ≠ 1 := by
  exact ⟨final_scores_one_three_four, by norm_num⟩

/-- For every `T ≥ 3` and `alpha > 1` the top score is strictly below 1:
the denominator is the top numerator plus the tail over positions
`2 .. T`, and that tail is strictly positive because its `i = 2` term is
`alpha^(T-2) - 1 > 0`. -/
lemma final_scores_top_lt_one (T : ℤ) (α : ℝ) (hT : 3 ≤ T) (hα : 1 < α) :
    final_scores 1 T α < 1 := by
  rw [final_scores, if_neg (by omega : ¬ T = 1)]
  have hsplit : Finset.Icc (1 : ℤ) T = insert 1 (Finset.Icc 2 T) := by
    ext i
    rw [Finset.mem_insert, Finset.mem_Icc, Finset.mem_Icc]
    omega
  have h1notin : (1 : ℤ) ∉ Finset.Icc (2 : ℤ) T := by
    rw [Finset.mem_Icc]
    omega
  have htail : 0 < ∑ i in Finset.Icc (2 : ℤ) T, (α ^ (T - i) - 1) := by
    apply Finset.sum_pos'
    · intro i hi
      rw [Finset.mem_Icc] at hi
      have : (1 : ℝ) ≤ α ^ (T - i) := one_le_zpow₀ hα.le (by omega)
      linarith
    · refine ⟨2, Finset.mem_Icc.mpr ⟨le_refl 2, by omega⟩, ?_⟩
      have : (1 : ℝ) < α ^ (T - 2) := one_lt_zpow₀ hα (by omega)
      linarith
  have hnum : (0 : ℝ) < α ^ (T - 1) - 1 := by
    have : (1 : ℝ) < α ^ (T - 1) := one_lt_zpow₀ hα (by omega)
    linarith
  have hden : fsDen T α
      = (α ^ (T - 1) - 1) + ∑ i in Finset.Icc (2 : ℤ) T, (α ^ (T - i) - 1) := by
    rw [fsDen, hsplit, Finset.sum_insert h1notin]
  rw [hden, div_lt_one (by linarith)]
  linarith

/-- C1 (amended): the top position scores exactly 1 only when the match
has exactly two position groups: for every `alpha > 1`,
`finalScore(1, 2, alpha) = 1`, while for every `T ≥ 3` (and any
`alpha > 1`) the top score is strictly below 1. -/
theorem c1_amended (T : ℤ) (α : ℝ) (hα : 1 < α) :
    final_scores 1 2 α = 1 ∧ (3 ≤ T → final_scores 1 T α < 1) :=
  ⟨final_scores_one_two α hα, fun hT => final_scores_top_lt_one T α hT hα⟩

/-- C1 (witness): the amended statement at `T = 3`, `alpha = 4`. -/
theorem c1_witness : final_scores 1 2 4 = 1 ∧ final_scores 1 3 4 < 1 := by
  obtain ⟨h1, h2⟩ := c1_amended 3 4 (by norm_num)
  exact ⟨h1, h2 (by norm_num)⟩

/-! ### C10: the unguarded division in the score model -/

/-- C10: for every `T ≥ 2` the denominator of `finalScore` is strictly
positive when `alpha > 1` (so the division never fails under the
documented defaults), but at `alpha = 1` the denominator is exactly 0
and the call fails with a division error. -/
theorem c10_division_unguarded (T : ℤ) (hT : 2 ≤ T) :
    (∀ α : ℝ, 1 < α → 0 < fsDen T α) ∧
      fsDen T 1 = 0 ∧ ¬ final_scores_ok T 1 := by
  refine ⟨fun α hα => fsDen_pos T α hT hα, fsDen_alpha_one T, ?_⟩
  rw [final_scores_ok]
  push_neg
  exact ⟨by omega, by rw [fsDen_alpha_one]⟩

/-- C10 (witness): the statement at `T = 3`, including `alpha = 4`. -/
theorem c10_witness :
    (0 < fsDen 3 4 ∧ fsDen 3 1 = 0 ∧ ¬ final_scores_ok 3 1) := by
  obtain ⟨h1, h2, h3⟩ := c10_division_unguarded 3 (by norm_num)
  exact ⟨h1 4 (by norm_num), h2, h3⟩

/-! ### C4: the score model performs no position validation -/

/-- C4 (counterexample): the claim says any call with `position` outside
`[1, totalPositions]` fails with an `InvalidPosition` error; the code
has no such check, and `final_scores(0, 2, 4)` completes without any
error and returns the numeric value `(4^2 - 1) / (4 - 1) = 5`. -/
theorem c4_counterexample :
    final_scores 0 2 4 = 5 ∧ final_scores_ok 2 4 := by
  constructor
  · rw [final_scores, if_neg (by norm_num), fsDen_two]
    norm_num
  · exact Or.inr (by rw [fsDen_two]; norm_num)

/-- C4 (amended): `finalScore` validates nothing.  With
`totalPositions = 1` it returns 0.5 for every position (in or out of
range); with `totalPositions ≥ 2` and `alpha > 1` every call completes
without error, whatever the position; only `totalPositions < 1` fails,
and then with a zero-denominator division error (the `range` sum is
empty), not an `InvalidPosition` error. -/
theorem c4_amended (p T : ℤ) (α : ℝ) (hα : 1 < α) :
    (T < 1 → ¬ final_scores_ok T α) ∧
      final_scores p 1 α = 0.5 ∧
      (2 ≤ T → final_scores_ok T α) := by
  refine ⟨?_, ?_, ?_⟩
  · intro hT
    rw [final_scores_ok]
    push_neg
    exact ⟨by omega, by rw [fsDen_of_lt_one T α hT]⟩
  · rw [final_scores, if_pos rfl]
  · intro hT
    exact Or.inr (ne_of_gt (fsDen_pos T α hT hα))

/-- C4 (witness): at the defaults, `finalScore(5, 1)` returns 0.5 for an
out-of-range position, `T = 2` calls never fail, and `T = 0` fails. -/
theorem c4_witness :
    ¬ final_scores_ok 0 4 ∧ final_scores 5 1 4 = 0.5 ∧ final_scores_ok 2 4 :=
  ⟨(c4_amended 5 0 4 (by norm_num)).1 (by norm_num),
   (c4_amended 5 0 4 (by norm_num)).2.1,
   (c4_amended 5 2 4 (by norm_num)).2.2 (by norm_num)⟩

/-! ### C5: when the probability model fails -/

/-- C5 (counterexample): the claim says `winningProbability` fails for
every mapping with fewer than 2 players; on the empty mapping the loop
body never runs, so the division by the zero pair count is never
executed and the call returns (an empty dict) successfully. -/
theorem c5_counterexample : ¬ winning_probability_fails (∅ : Finset Player) := by
  rintro ⟨h, -⟩
  simp at h

/-- C5 (amended): `winningProbability` fails with the division-by-zero
error exactly when the mapping has exactly one player; with zero
players it returns the empty mapping successfully, and with at least
two players it returns successfully. -/
theorem c5_amended (s : Finset Player) :
    (s.card = 1 → winning_probability_fails s) ∧
      (s.card ≠ 1 → ¬ winning_probability_fails s) := by
  constructor
  · intro h
    refine ⟨by omega, ?_⟩
    rw [h]
    norm_num
  · intro h
    rintro ⟨hpos, hden⟩
    rw [div_eq_zero_iff] at hden
    rcases hden with h2 | h2
    · rcases mul_eq_zero.mp h2 with h3 | h3
      · exact absurd (Nat.cast_eq_zero.mp h3) (by omega)
      · have : (s.card : ℝ) = 1 := by linarith
        exact h (Nat.cast_eq_one.mp this)
    · norm_num at h2

/-- C5 (witness): a one-player mapping fails; a two-player mapping does
not. -/
theorem c5_witness :
    winning_probability_fails {"A"} ∧
      ¬ winning_probability_fails ({"A", "B"} : Finset Player) :=
  ⟨(c5_amended {"A"}).1 (by decide), (c5_amended {"A", "B"}).2 (by decide)⟩

/-! ### C9: the floor clamp -/

/-- C9: the clamp maps every proposed rating to `max 1400 proposed`, the
ratings stored by the property setter are exactly the clamped values,
and hence no stored value is below 1400 after any assignment. -/
theorem c9_clamp (h : History) (ks : Finset Player) (r : Player → ℝ)
    (p : Player) :
    reset_ratings r p = max 1400 (r p) ∧
      (h.set_ratings ks r).ratings p = max 1400 (r p) ∧
      1400 ≤ (h.set_ratings ks r).ratings p := by
  refine ⟨rfl, rfl, le_max_left _ _⟩

/-! ### C2: construction does not clamp -/

/-- C2 (counterexample): the claim says construction clamps the initial
mapping before storing it; `History.__init__` assigns `self._ratings`
directly, so an initial rating of 1300 is stored (and snapshotted) as
1300, below the 1400 floor. -/
theorem c2_counterexample :
    (History.init {"A"} (fun _ => (1300 : ℝ))).ratings "A" = 1300 ∧
      ¬ (1400 : ℝ) ≤ (History.init {"A"} (fun _ => (1300 : ℝ))).ratings "A" := by
  refine ⟨rfl, ?_⟩
  rw [show (History.init {"A"} (fun _ => (1300 : ℝ))).ratings "A" = 1300 from rfl]
  norm_num

/-- C2 (amended): construction stores the initial ratings mapping
unclamped and takes snapshot 0 from those unclamped values; the floor
clamp runs only in the ratings property setter, i.e. from the first
recorded match onward. -/
theorem c2_amended (ks : Finset Player) (r : Player → ℝ) (p : Player)
    (hp : p ∈ ks) (h : History) (ks2 : Finset Player) (r2 : Player → ℝ) :
    (History.init ks r).ratings p = r p ∧
      (History.init ks r).history p = [r p] ∧
      (h.set_ratings ks2 r2).ratings p = max 1400 (r2 p) := by
  refine ⟨rfl, ?_, rfl⟩
  simp [History.init, History.update_history, hp]

/-- C2 (witness): the amended statement on a concrete one-player tracker
with initial rating 1300. -/
theorem c2_witness :
    (History.init {"A"} (fun _ => (1300 : ℝ))).ratings "A" = 1300 ∧
      (History.init {"A"} (fun _ => (1300 : ℝ))).history "A" = [1300] ∧
      ((History.init {"A"} (fun _ => (1300 : ℝ))).set_ratings {"A"}
          (fun _ => (1300 : ℝ))).ratings "A" = max 1400 1300 :=
  c2_amended {"A"} (fun _ => (1300 : ℝ)) "A" (by decide)
    (History.init {"A"} (fun _ => (1300 : ℝ))) {"A"} (fun _ => (1300 : ℝ))

/-! ### C8: the probabilities sum to 1 -/

/-- The two orientations of one pair of players have expected pairwise
win shares summing to 1: `1/(1+10^x) + 1/(1+10^(-x)) = 1`. -/
lemma pair_shares_sum (R : Player → ℝ) (d : ℝ) (p q : Player) :
    1 / (1 + (10 : ℝ) ^ ((R q - R p) / d)) +
      1 / (1 + (10 : ℝ) ^ ((R p - R q) / d)) = 1 := by
  have ha : (0 : ℝ) < (10 : ℝ) ^ ((R q - R p) / d) :=
    Real.rpow_pos_of_pos (by norm_num) _
  have hb : (0 : ℝ) < (10 : ℝ) ^ ((R p - R q) / d) :=
    Real.rpow_pos_of_pos (by norm_num) _
  have hab : (10 : ℝ) ^ ((R q - R p) / d) * (10 : ℝ) ^ ((R p - R q) / d) = 1 := by
    rw [← Real.rpow_add (by norm_num)]
    rw [show (R q - R p) / d + (R p - R q) / d = 0 by ring]
    exact Real.rpow_zero 10
  have h1 : 1 + (10 : ℝ) ^ ((R q - R p) / d) ≠ 0 := by positivity
  have h2 : 1 + (10 : ℝ) ^ ((R p - R q) / d) ≠ 0 := by positivity
  field_simp
  linear_combination -hab

/-- Double counting: summing the unnormalized numerator of
`winning_probability` over all players counts each unordered pair once,
giving `N (N - 1) / 2`. -/
lemma numerators_total (s : Finset Player) (R : Player → ℝ) (d : ℝ)
    (h1 : 1 ≤ s.card) :
    ∑ p in s, ∑ q in s.erase p, 1 / (1 + (10 : ℝ) ^ ((R q - R p) / d))
      = (s.card : ℝ) * ((s.card : ℝ) - 1) / 2 := by
  set f : Player → Player → ℝ :=
    fun p q => 1 / (1 + (10 : ℝ) ^ ((R q - R p) / d)) with hf
  have swap : ∑ p in s, ∑ q in s.erase p, f p q
      = ∑ p in s, ∑ q in s.erase p, f q p := by
    refine Finset.sum_comm' (fun x y => ?_)
    simp only [Finset.mem_erase]
    constructor
    · rintro ⟨hx, hyx, hy⟩
      exact ⟨⟨fun h => hyx h.symm, hx⟩, hy⟩
    · rintro ⟨⟨hxy, hx⟩, hy⟩
      exact ⟨hx, fun h => hxy h.symm, hy⟩
  have double : (∑ p in s, ∑ q in s.erase p, f p q) * 2
      = (s.card : ℝ) * ((s.card : ℝ) - 1) := by
    calc (∑ p in s, ∑ q in s.erase p, f p q) * 2
        = (∑ p in s, ∑ q in s.erase p, f p q)
            + (∑ p in s, ∑ q in s.erase p, f q p) := by rw [← swap]; ring
      _ = ∑ p in s, (∑ q in s.erase p, f p q + ∑ q in s.erase p, f q p) := by
            rw [Finset.sum_add_distrib]
      _ = ∑ p in s, ∑ q in s.erase p, (f p q + f q p) := by
            refine Finset.sum_congr rfl fun p _ => ?_
            rw [Finset.sum_add_distrib]
      _ = ∑ p in s, ∑ q in s.erase p, (1 : ℝ) := by
            refine Finset.sum_congr rfl fun p _ => ?_
            refine Finset.sum_congr rfl fun q _ => ?_
            exact pair_shares_sum R d p q
      _ = ∑ p in s, ((s.card - 1 : ℕ) : ℝ) := by
            refine Finset.sum_congr rfl fun p hp => ?_
            rw [Finset.sum_const, Finset.card_erase_of_mem hp, nsmul_eq_mul,
              mul_one]
      _ = (s.card : ℝ) * ((s.card : ℝ) - 1) := by
            rw [Finset.sum_const, nsmul_eq_mul, Nat.cast_sub h1]
            push_cast
            ring
  linarith [double]

/-- C8: for every ratings mapping with at least 2 players (and any
nonzero `diff`, so the exponent's division is the one Python performs),
the values returned by `winning_probability` sum to exactly 1 over the
players of the mapping, in exact real arithmetic. -/
theorem c8_probabilities_sum_to_one (s : Finset Player) (R : Player → ℝ)
    (d : ℝ) (h2 : 2 ≤ s.card) (_hd : d ≠ 0) :
    ∑ p in s, winning_probability s R d p = 1 := by
  have h1 : 1 ≤ s.card := by omega
  have hN : (2 : ℝ) ≤ (s.card : ℝ) := by exact_mod_cast h2
  have hD : ((s.card : ℝ) * ((s.card : ℝ) - 1) / 2) ≠ 0 :=
    ne_of_gt (div_pos (mul_pos (by linarith) (by linarith)) (by norm_num))
  simp only [winning_probability]
  rw [← Finset.sum_div, numerators_total s R d h1, div_self hD]

/-- C8 (witness): two equally rated players at the default diff. -/
theorem c8_witness :
    ∑ p in ({"A", "B"} : Finset Player),
      winning_probability {"A", "B"} (fun _ => 1500) 700 p = 1 :=
  c8_probabilities_sum_to_one {"A", "B"} (fun _ => 1500) 700 (by decide)
    (by norm_num)

/-! ### C6: unknown players abort the update with no partial application -/

/-- C6: when any player of the match is absent from the ratings dict,
`calculate_new_ratings` raises the unknown-player error (the `KeyError`
from `ratings[name]`, at the first absent name in match order) and the
ratings dict at the moment the call aborts is the unchanged input: the
error is raised while building `player_ratings`, before the update loop
writes anything. -/
theorem c6_unknown_player (keys : Finset Player) (R : Player → ℝ) (m : Match)
    (award : ℝ) (n : Player) (hn : n ∈ m.flatten) (hnk : n ∉ keys) :
    (calculate_new_ratings keys R m award).1 = R ∧
      ∃ u, u ∈ m.flatten ∧ u ∉ keys ∧
        (calculate_new_ratings keys R m award).2
          = some (CalcErr.unknownPlayer u) := by
  have hsome : (m.flatten.find? (fun x => decide (x ∉ keys))).isSome := by
    rw [List.find?_isSome]
    exact ⟨n, hn, by simpa using hnk⟩
  obtain ⟨u, hu⟩ := Option.isSome_iff_exists.mp hsome
  have hmem : u ∈ m.flatten := List.mem_of_find?_eq_some hu
  have hukeys : u ∉ keys := by
    simpa using @List.find?_some Player (fun x => decide (x ∉ keys)) u m.flatten hu
  have hfu : firstUnknown keys m = some u := hu
  constructor
  · simp only [calculate_new_ratings, hfu]
  · exact ⟨u, hmem, hukeys, by simp only [calculate_new_ratings, hfu]⟩

/-- C6 (witness): the spec's concrete scenario — ratings `{A: 1500}`,
match `[[A], [B]]` — errors on the unknown player `B` and leaves the
ratings unchanged. -/
theorem c6_witness :
    (calculate_new_ratings {"A"} (fun _ => (1500 : ℝ)) [["A"], ["B"]] 50).1
        = (fun _ => (1500 : ℝ)) ∧
      ∃ u, u ∈ ([["A"], ["B"]] : Match).flatten ∧ u ∉ ({"A"} : Finset Player) ∧
        (calculate_new_ratings {"A"} (fun _ => (1500 : ℝ)) [["A"], ["B"]] 50).2
          = some (CalcErr.unknownPlayer u) :=
  c6_unknown_player {"A"} (fun _ => (1500 : ℝ)) [["A"], ["B"]] 50 "B"
    (by decide) (by decide)

/-! ### Evaluating the update loop -/

/-- On a duplicate-free player list each dict entry is written exactly
once, so the in-place update loop realises the closed-form per-player
formula. -/
lemma applyUpdates_nodup (award M : ℝ) (scores wc : Player → ℝ)
    (l : List Player) (R : Player → ℝ) (hl : l.Nodup) (p : Player) :
    applyUpdates award M scores wc R l p
      = if p ∈ l then R p + award * (M - 1) * (scores p - wc p) else R p := by
  induction l generalizing R with
  | nil => simp [applyUpdates]
  | cons n rest ih =>
      obtain ⟨hn, hrest⟩ := List.nodup_cons.mp hl
      rw [applyUpdates, ih _ hrest]
      by_cases hpr : p ∈ rest
      · have hpn : p ≠ n := fun h => hn (h ▸ hpr)
        rw [if_pos hpr, if_pos (List.mem_cons_of_mem n hpr),
          Function.update_noteq hpn]
      · by_cases hpn : p = n
        · subst hpn
          rw [if_neg hpr, if_pos (List.mem_cons_self p rest),
            Function.update_same]
        · rw [if_neg hpr, if_neg (by simp [hpn, hpr]),
            Function.update_noteq hpn]

/-- When every match participant is a known player and the participant
count is not 1, `calculate_new_ratings` takes its non-error branch. -/
lemma calculate_new_ratings_eq (keys : Finset Player) (R : Player → ℝ)
    (m : Match) (award : ℝ) (hall : ∀ n ∈ m.flatten, n ∈ keys)
    (hcard : m.flatten.toFinset.card ≠ 1) :
    calculate_new_ratings keys R m award
      = (applyUpdates award (m.flatten.length : ℝ) (buildScores m)
          (winning_probability m.flatten.toFinset R 700) R m.flatten, none) := by
  have hfu : firstUnknown keys m = none := by
    rw [firstUnknown, List.find?_eq_none]
    intro x hx
    simpa using hall x hx
  simp only [calculate_new_ratings, hfu, if_neg hcard]

/-- With all ratings equal, every pairwise term is `1/2` and each of the
`N` players has winning probability exactly `1/N`. -/
lemma winning_probability_const (s : Finset Player) (c d : ℝ) (p : Player)
    (hp : p ∈ s) (h2 : 2 ≤ s.card) :
    winning_probability s (fun _ => c) d p = 1 / (s.card : ℝ) := by
  have hterm : ∀ q : Player,
      1 / (1 + (10 : ℝ) ^ ((c - c) / d)) = (1 / 2 : ℝ) := by
    intro q
    rw [show (c - c) / d = 0 by ring, Real.rpow_zero]
    norm_num
  have hN : (2 : ℝ) ≤ (s.card : ℝ) := by exact_mod_cast h2
  simp only [winning_probability]
  rw [Finset.sum_congr rfl fun q _ => hterm q, Finset.sum_const,
    Finset.card_erase_of_mem hp, nsmul_eq_mul,
    Nat.cast_sub (by omega : 1 ≤ s.card)]
  have h1 : (s.card : ℝ) - 1 ≠ 0 := by linarith
  have h0 : (s.card : ℝ) ≠ 0 := by linarith
  push_cast
  field_simp
  ring

/-- The `player_scores` dict of the two-group match `[[A], [B]]`:
`A` gets `final_scores(1, 2)` and `B` gets `final_scores(2, 2)`. -/
lemma buildScores_pair :
    buildScores [["A"], ["B"]] "A" = final_scores 1 2 4 ∧
      buildScores [["A"], ["B"]] "B" = final_scores 2 2 4 := by
  have hAB : ("A" : Player) ≠ "B" := by decide
  constructor <;>
    simp [buildScores, buildScoresAux, Function.update, hAB]

/-- Evaluation of `calculate_new_ratings` on ratings `{A: c, B: c}` and
match `[[A], [B]]` with the default parameters: `A` gains 25 points,
`B` loses 25, and no error is raised. -/
lemma pair_eval (c : ℝ) :
    (calculate_new_ratings {"A", "B"} (fun _ => c) [["A"], ["B"]] 50).1 "A"
        = c + 25 ∧
      (calculate_new_ratings {"A", "B"} (fun _ => c) [["A"], ["B"]] 50).1 "B"
        = c - 25 ∧
      (calculate_new_ratings {"A", "B"} (fun _ => c) [["A"], ["B"]] 50).2
        = none := by
  rw [calculate_new_ratings_eq _ _ _ _ (by decide) (by decide)]
  have hfl : ([["A"], ["B"]] : Match).flatten = ["A", "B"] := rfl
  have hcard : (["A", "B"] : List Player).toFinset.card = 2 := by decide
  have hwA : winning_probability (["A", "B"] : List Player).toFinset
      (fun _ => c) 700 "A" = 1 / 2 := by
    rw [winning_probability_const _ c 700 "A" (by decide) (by rw [hcard]), hcard]
    norm_num
  have hwB : winning_probability (["A", "B"] : List Player).toFinset
      (fun _ => c) 700 "B" = 1 / 2 := by
    rw [winning_probability_const _ c 700 "B" (by decide) (by rw [hcard]), hcard]
    norm_num
  have hnd : (["A", "B"] : List Player).Nodup := by decide
  refine ⟨?_, ?_, rfl⟩
  · rw [hfl]
    dsimp only
    rw [applyUpdates_nodup _ _ _ _ _ _ hnd _,
      if_pos (by decide : ("A" : Player) ∈ ["A", "B"]), buildScores_pair.1,
      final_scores_one_two 4 (by norm_num), hwA]
    norm_num
  · rw [hfl]
    dsimp only
    rw [applyUpdates_nodup _ _ _ _ _ _ hnd _,
      if_pos (by decide : ("B" : Player) ∈ ["A", "B"]), buildScores_pair.2,
      final_scores_two_two 4, hwB]
    have hlen : (((["A", "B"] : List Player).length : ℕ) : ℝ) = 2 := by norm_num
    rw [hlen]
    ring

/-! ### C7: the rating-update formula -/

/-- C7: on a duplicate-free match of known players (participant count
not 1), every participant `p` ends with
`ratings[p] + award · (M − 1) · (positionScore(p) − expectedProb(p))`,
where `M` counts every individual player of the match and the expected
probability is computed over the match participants only; in
particular, ratings `{A: 1500, B: 1500}` and match `[[A], [B]]` with the
default parameters give exactly `{A: 1525, B: 1475}`. -/
theorem c7_update_formula (keys : Finset Player) (R : Player → ℝ) (m : Match)
    (award : ℝ) (p : Player) (hnd : m.flatten.Nodup)
    (hall : ∀ n ∈ m.flatten, n ∈ keys) (hcard : m.flatten.toFinset.card ≠ 1)
    (hp : p ∈ m.flatten) :
    (calculate_new_ratings keys R m award).1 p
        = R p + award * ((m.flatten.length : ℝ) - 1)
            * (buildScores m p
                - winning_probability m.flatten.toFinset R 700 p) ∧
      (calculate_new_ratings {"A", "B"} (fun _ => (1500 : ℝ))
          [["A"], ["B"]] 50).1 "A" = 1525 ∧
      (calculate_new_ratings {"A", "B"} (fun _ => (1500 : ℝ))
          [["A"], ["B"]] 50).1 "B" = 1475 := by
  refine ⟨?_, ?_, ?_⟩
  · rw [calculate_new_ratings_eq keys R m award hall hcard]
    dsimp only
    rw [applyUpdates_nodup _ _ _ _ _ _ hnd p, if_pos hp]
  · rw [(pair_eval 1500).1]
    norm_num
  · rw [(pair_eval 1500).2.1]
    norm_num

/-- C7 (witness): the general formula instantiated at the spec's
concrete scenario, player `A`. -/
theorem c7_witness :
    (calculate_new_ratings {"A", "B"} (fun _ => (1500 : ℝ))
          [["A"], ["B"]] 50).1 "A"
        = (fun _ => (1500 : ℝ)) "A"
            + 50 * (((([["A"], ["B"]] : Match).flatten.length : ℕ) : ℝ) - 1)
              * (buildScores [["A"], ["B"]] "A"
                  - winning_probability ([["A"], ["B"]] : Match).flatten.toFinset
                      (fun _ => (1500 : ℝ)) 700 "A") ∧
      (calculate_new_ratings {"A", "B"} (fun _ => (1500 : ℝ))
          [["A"], ["B"]] 50).1 "A" = 1525 ∧
      (calculate_new_ratings {"A", "B"} (fun _ => (1500 : ℝ))
          [["A"], ["B"]] 50).1 "B" = 1475 :=
  c7_update_formula {"A", "B"} (fun _ => (1500 : ℝ)) [["A"], ["B"]] 50 "A"
    (by decide) (by decide) (by decide) (by decide)

/-! ### C3: what state the next match actually reads -/

/-- C3 (counterexample): the claim says match `k+1` reads exactly the
clamped state from match `k`.  Starting both players at the 1400 floor
and playing `[[A], [B]]`, the global dict `main` passes to the next
match holds `B = 1375` (the unclamped in-place result), while the
clamped tracker state holds `B = 1400` — and those differ. -/
theorem c3_counterexample :
    (main_step {"A", "B"} (fun _ => (1400 : ℝ))
        (History.init {"A", "B"} (fun _ => (1400 : ℝ))) [["A"], ["B"]]).1 "B"
      = 1375 ∧
    (main_step {"A", "B"} (fun _ => (1400 : ℝ))
        (History.init {"A", "B"} (fun _ => (1400 : ℝ)))
        [["A"], ["B"]]).2.ratings "B" = 1400 ∧
    (1375 : ℝ) ≠ 1400 := by
  have h1 := (pair_eval 1400).2.1
  refine ⟨?_, ?_, by norm_num⟩
  · show (calculate_new_ratings {"A", "B"} (fun _ => (1400 : ℝ))
        [["A"], ["B"]] 50).1 "B" = 1375
    rw [h1]
    norm_num
  · show max 1400 ((calculate_new_ratings {"A", "B"} (fun _ => (1400 : ℝ))
        [["A"], ["B"]] 50).1 "B") = 1400
    rw [h1]
    rw [max_eq_left (by norm_num)]

/-- C3 (amended): the ratings mapping used to compute match `k+1` is the
raw, unclamped output of match `k`'s in-place update of the global
dict; the clamped values live only in the tracker.  Concretely, from
`{A: 1400, B: 1400}` and match `[[A], [B]]`, the next match reads
`{A: 1425, B: 1375}` while the tracker's clamped state is
`{A: 1425, B: 1400}`. -/
theorem c3_amended :
    (∀ (keys : Finset Player) (g : Player → ℝ) (h : History) (m : Match)
        (ms : List Match),
      main_loop keys g h (m :: ms)
        = main_loop keys ((calculate_new_ratings keys g m 50).1)
            (h.set_ratings keys ((calculate_new_ratings keys g m 50).1)) ms) ∧
    (main_step {"A", "B"} (fun _ => (1400 : ℝ))
        (History.init {"A", "B"} (fun _ => (1400 : ℝ))) [["A"], ["B"]]).1 "A"
      = 1425 ∧
    (main_step {"A", "B"} (fun _ => (1400 : ℝ))
        (History.init {"A", "B"} (fun _ => (1400 : ℝ))) [["A"], ["B"]]).1 "B"
      = 1375 ∧
    (main_step {"A", "B"} (fun _ => (1400 : ℝ))
        (History.init {"A", "B"} (fun _ => (1400 : ℝ)))
        [["A"], ["B"]]).2.ratings "A" = 1425 ∧
    (main_step {"A", "B"} (fun _ => (1400 : ℝ))
        (History.init {"A", "B"} (fun _ => (1400 : ℝ)))
        [["A"], ["B"]]).2.ratings "B" = 1400 := by
  obtain ⟨hA, hB, -⟩ := pair_eval (1400 : ℝ)
  refine ⟨fun keys g h m ms => rfl, ?_, ?_, ?_, ?_⟩
  · show (calculate_new_ratings {"A", "B"} (fun _ => (1400 : ℝ))
        [["A"], ["B"]] 50).1 "A" = 1425
    rw [hA]
    norm_num
  · show (calculate_new_ratings {"A", "B"} (fun _ => (1400 : ℝ))
        [["A"], ["B"]] 50).1 "B" = 1375
    rw [hB]
    norm_num
  · show max 1400 ((calculate_new_ratings {"A", "B"} (fun _ => (1400 : ℝ))
        [["A"], ["B"]] 50).1 "A") = 1425
    rw [hA]
    rw [max_eq_right (by norm_num)]
    norm_num
  · show max 1400 ((calculate_new_ratings {"A", "B"} (fun _ => (1400 : ℝ))
        [["A"], ["B"]] 50).1 "B") = 1400
    rw [hB]
    rw [max_eq_left (by norm_num)]

end Elo
